import Mathlib

/-!
Verification development for the PMD GitHub Action core (src/util.ts).

The embedding models, from the TypeScript source:
  - the version policy predicates `useNewArgsFormat` and `isPmd7Cli`
    (node-semver comparison against the 6.41.0 threshold, major-version test);
  - the command builder `executePmd` (executable suffix selection, argument
    vector, file-list side effect);
  - the download routing `downloadPmd` (conflicting `latest` + downloadUrl);
  - release asset selection `getDownloadURL`;
  - the paginated change-set resolver `determineModifiedFiles` with its
    per-page filter `extractFilenames`, Node posix `path.normalize`
    semantics, and the insertion-ordered `Set` accumulation.

Network, filesystem and process effects are represented by explicit data:
page contents are given as functions from page numbers to API responses,
issued requests are recorded as `(page, per_page)` pairs, and the file
written by `writeFileList` is returned as `(path, content)`.
-/

/-! ### Semantic versions (node-semver comparison)

The action stores versions as strings and compares them with
`semver.gte(v, "6.41.0")` and `semver.major(v) >= 7`.  Parsing is upstream
(input validation); here a version is the parsed record.  A prerelease
identifier is numeric or alphanumeric, as in the semver grammar. -/

/-- Prerelease identifier: numeric (compared as numbers) or alphanumeric
(compared lexically); mirrors node-semver `compareIdentifiers`. -/
inductive PreId where
  | num (n : Nat)
  | str (s : String)
deriving DecidableEq

/-- Parsed semantic version, as node-semver represents it after parsing. -/
structure SemVer where
  major : Nat
  minor : Nat
  patch : Nat
  prerelease : List PreId
deriving DecidableEq

/-- Numeric three-way comparison, as node-semver compares numeric parts. -/
def natCmp (a b : Nat) : Ordering :=
  if a < b then .lt else if b < a then .gt else .eq

/-- Lexical three-way comparison of alphanumeric identifiers. -/
def strCmp (a b : String) : Ordering :=
  if a < b then .lt else if b < a then .gt else .eq

/-- node-semver `compareIdentifiers`: numeric identifiers compare as numbers,
a numeric identifier is lower than an alphanumeric one, alphanumeric
identifiers compare lexically. -/
def cmpIdent : PreId → PreId → Ordering
  | .num a, .num b => natCmp a b
  | .num _, .str _ => .lt
  | .str _, .num _ => .gt
  | .str a, .str b => strCmp a b

/-- Identifier-by-identifier comparison of two nonempty prerelease lists;
running out of identifiers first means lower precedence. -/
def cmpPreLoop : List PreId → List PreId → Ordering
  | [], [] => .eq
  | [], _ :: _ => .lt
  | _ :: _, [] => .gt
  | a :: as, b :: bs =>
    match cmpIdent a b with
    | .eq => cmpPreLoop as bs
    | o => o

/-- node-semver `comparePre`: a version with a prerelease has lower
precedence than the same version without one. -/
def cmpPre (a b : List PreId) : Ordering :=
  match a, b with
  | [], [] => .eq
  | _ :: _, [] => .lt
  | [], _ :: _ => .gt
  | _ :: _, _ :: _ => cmpPreLoop a b

/-- node-semver `compare`: major, minor, patch numerically, then prerelease. -/
def semverCompare (a b : SemVer) : Ordering :=
  match natCmp a.major b.major with
  | .eq =>
    match natCmp a.minor b.minor with
    | .eq =>
      match natCmp a.patch b.patch with
      | .eq => cmpPre a.prerelease b.prerelease
      | o => o
    | o => o
  | o => o

/-- node-semver `gte`: `compare(a, b) >= 0`. -/
def semverGte (a b : SemVer) : Bool :=
  match semverCompare a b with
  | .lt => false
  | _ => true

/-- Threshold release where PMD switched to long-form flags (6.41.0). -/
def newArgsThreshold : SemVer := { major := 6, minor := 41, patch := 0, prerelease := [] }

/-- `useNewArgsFormat` from util.ts: `semver.gte(pmdVersion, "6.41.0")`. -/
def useNewArgsFormat (pmdVersion : SemVer) : Bool :=
  semverGte pmdVersion newArgsThreshold

/-- `isPmd7Cli` from util.ts: `semver.major(pmdVersion) >= 7`. -/
def isPmd7Cli (pmdVersion : SemVer) : Bool :=
  decide (7 ≤ pmdVersion.major)

/-! ### Specification-side semver precedence order

`semverLtSpec a b` states "a has lower precedence than b" following the
SemVer specification text, independently of the comparison code above:
lexicographic on (major, minor, patch); at equal cores a prerelease makes
the version lower; prerelease lists compare identifier-wise with a shorter
list (that is a prefix) lower. -/

/-- Specification order on single prerelease identifiers. -/
def IdentLtSpec : PreId → PreId → Prop
  | .num a, .num b => a < b
  | .num _, .str _ => True
  | .str _, .num _ => False
  | .str a, .str b => a < b

/-- Specification order on identifier sequences (both nonempty contexts):
lexicographic, with a strict prefix being lower. -/
def preListLtSpec : List PreId → List PreId → Prop
  | [], [] => False
  | [], _ :: _ => True
  | _ :: _, [] => False
  | a :: as, b :: bs => IdentLtSpec a b ∨ (a = b ∧ preListLtSpec as bs)

/-- Specification prerelease rule: a prerelease version is lower than the
release, and two prereleases compare identifier-wise. -/
def preLtSpec (a b : List PreId) : Prop :=
  (a ≠ [] ∧ b = []) ∨ (a ≠ [] ∧ b ≠ [] ∧ preListLtSpec a b)

/-- Specification order on version cores. -/
def mainLtSpec (a b : SemVer) : Prop :=
  a.major < b.major ∨
    (a.major = b.major ∧
      (a.minor < b.minor ∨ (a.minor = b.minor ∧ a.patch < b.patch)))

/-- Specification precedence order on versions. -/
def semverLtSpec (a b : SemVer) : Prop :=
  mainLtSpec a b ∨
    (a.major = b.major ∧ a.minor = b.minor ∧ a.patch = b.patch ∧
      preLtSpec a.prerelease b.prerelease)

/-! ### Node posix `path.normalize`

`determineModifiedFiles` runs `path.normalize` on every filename and on the
source path (with an appended separator), and `path.join` for the file-list
location.  The model below follows Node's posix implementation: split on
separators, drop empty and `.` segments, resolve `..` against the collected
segments (keeping leading `..`s for relative paths), then reassemble,
preserving a root slash and a trailing slash.  All functions are structural
over character lists so that concrete inputs evaluate inside the kernel. -/

/-- Splits a character list on the posix separator, keeping empty segments
(as `String.prototype.split` does). -/
def splitOnSlash : List Char → List (List Char)
  | [] => [[]]
  | c :: rest =>
    let r := splitOnSlash rest
    if c = '/' then [] :: r
    else
      match r with
      | s :: ss => (c :: s) :: ss
      | [] => [[c]]

/-- One step of Node `normalizeString`: fold a raw segment into the
accumulated segment list, skipping empty and `.` segments and resolving
`..` (kept at the front of a relative path, dropped at a root). -/
def normAppend (allowAbove : Bool) (acc : List (List Char)) (seg : List Char) :
    List (List Char) :=
  if seg = [] ∨ seg = ['.'] then acc
  else if seg = ['.', '.'] then
    match acc.getLast? with
    | some l => if l = ['.', '.'] then acc ++ [seg] else acc.dropLast
    | none => if allowAbove then [seg] else []
  else acc ++ [seg]

/-- Reassembles segments with single separators. -/
def joinSlash : List (List Char) → List Char
  | [] => []
  | [s] => s
  | s :: r :: rs => s ++ '/' :: joinSlash (r :: rs)

/-- Final assembly step of Node `path.normalize`: given whether the path is
absolute, whether it had a trailing separator, and the normalized body,
rebuild the result (root `/`, `./` for an emptied relative path with
trailing separator, `.` for an emptied relative path, else the body with
the root and trailing separators restored). -/
def pathNormalizeCore (isAbs trailing : Bool) (body : List Char) : List Char :=
  if body = [] then
    if isAbs then ['/'] else if trailing then ['.', '/'] else ['.']
  else
    if isAbs then '/' :: (if trailing then body ++ ['/'] else body)
    else (if trailing then body ++ ['/'] else body)

/-- Node posix `path.normalize` on the character list of the path. -/
def pathNormalizeData (l : List Char) : List Char :=
  if l = [] then ['.']
  else
    pathNormalizeCore (l.head? == some '/') (l.getLast? == some '/')
      (joinSlash ((splitOnSlash l).foldl (normAppend (!(l.head? == some '/'))) []))

/-- Node posix `path.normalize`. -/
def pathNormalize (p : String) : String := ⟨pathNormalizeData p.data⟩

/-- Node posix `path.join` for two nonempty parts: concatenate with a
separator, then normalize. -/
def pathJoin (a b : String) : String := pathNormalize (a ++ "/" ++ b)

/-- JavaScript `String.prototype.startsWith` on host strings. -/
def strStartsWith (s pre : String) : Bool := pre.data.isPrefixOf s.data

/-! ### CommandBuilder (`executePmd`) and `writeFileList` -/

/-- Resolved tool distribution, as produced by the ArtifactResolver. -/
structure PmdInfo where
  version : SemVer
  path : String
deriving DecidableEq

/-- The `string | string[]` union taken by `executePmd`: an explicit source
path, or the list of modified files. -/
inductive SourceSelector where
  | path (p : String)
  | fileList (fs : List String)
deriving DecidableEq

/-- Executable suffix selection from `executePmd`: legacy wrapper script by
default, next-gen entry point for PMD 7, always the batch script on
Windows, and the `check --no-progress` subcommand appended for PMD 7. -/
def pmdExecutableSuffix (platform : String) (version : SemVer) : String :=
  let e1 := "/bin/run.sh pmd"
  let e2 := if isPmd7Cli version then "/bin/pmd" else e1
  let e3 := if platform = "win32" then "\\bin\\pmd.bat" else e2
  if isPmd7Cli version then e3 ++ " check --no-progress" else e3

/-- Cache flag spelling from `executePmd`. -/
def noCacheFlag (version : SemVer) : String :=
  if useNewArgsFormat version then "--no-cache" else "-no-cache"

/-- Source-selector flags from `executePmd`. -/
def sourceParameter (version : SemVer) : SourceSelector → List String
  | .fileList _ =>
    [if useNewArgsFormat version then "--file-list" else "-filelist", "pmd.filelist"]
  | .path p => ["-d", p]

/-- Content written by `writeFileList`: the list comma-joined, no trailing
newline. -/
def fileListContent (fileList : List String) : String :=
  String.intercalate "," fileList

/-- Location written by `writeFileList`: `path.join(".", "pmd.filelist")`. -/
def writeFileListPath : String := pathJoin "." "pmd.filelist"

/-- Result of building the PMD invocation: the executable string, the
argument vector handed to the process launcher, and the file-list artifact
written beforehand (location and exact content), when one is written. -/
structure ExecInvocation where
  executable : String
  args : List String
  fileListWritten : Option (String × String)
deriving DecidableEq

/-- Embedding of `executePmd` up to the process launch: the executable, the
argument vector in source order, and the `writeFileList` side effect. -/
def executePmd (platform : String) (pmdInfo : PmdInfo)
    (fileListOrSourcePath : SourceSelector)
    (ruleset reportFormat reportFile minimumPriority : String) : ExecInvocation :=
  { executable := pmdInfo.path ++ pmdExecutableSuffix platform pmdInfo.version
    args :=
      noCacheFlag pmdInfo.version ::
        sourceParameter pmdInfo.version fileListOrSourcePath ++
          ["-f", reportFormat, "-R", ruleset, "-r", reportFile,
            "--minimum-priority", minimumPriority]
    fileListWritten :=
      match fileListOrSourcePath with
      | .fileList fs => some (writeFileListPath, fileListContent fs)
      | .path _ => none }

/-! ### ArtifactResolver routing (`downloadPmd`) -/

/-- Which delegate `downloadPmd` hands off to.  All cache, registry and
network access of the resolver happens inside these delegates
(`downloadPmdRelease` and `downloadPmdUrl`); an error return from
`downloadPmd` therefore happens before any of it. -/
inductive DownloadRoute where
  | release
  | url
deriving DecidableEq

/-- Embedding of `downloadPmd`: the conflicting-inputs guard and the choice
of delegate.  `none` stands for an `undefined` downloadUrl.  The thrown
message interpolates the inputs as the source does (wording adjusted). -/
def downloadPmd (version : String) (downloadUrl : Option String) :
    Except String DownloadRoute :=
  if version = "latest" ∧ downloadUrl ≠ none ∧ downloadUrl ≠ some "" then
    .error ("cannot combine version=" ++ version ++
      " with custom downloadUrl=" ++ downloadUrl.getD "")
  else if downloadUrl = none ∨ downloadUrl = some "" then
    .ok .release
  else
    .ok .url

/-! ### Release assets (`getDownloadURL`) -/

/-- One asset of a GitHub release. -/
structure ReleaseAsset where
  name : String
  browser_download_url : String
deriving DecidableEq

/-- The part of a GitHub release record the resolver reads. -/
structure GitHubRelease where
  tag_name : String
  assets : List ReleaseAsset
deriving DecidableEq

/-- Replaces the first occurrence of a pattern in a character list, as
JavaScript `String.prototype.replace` with a string pattern does. -/
def replaceFirstAux (pat repl : List Char) : List Char → List Char
  | [] => []
  | c :: rest =>
    if pat.isPrefixOf (c :: rest) then repl ++ (c :: rest).drop pat.length
    else c :: replaceFirstAux pat repl rest

/-- JavaScript `String.prototype.replace` with a plain-string pattern
(first occurrence only). -/
def replaceFirst (s pat repl : String) : String :=
  if pat = "" then s else ⟨replaceFirstAux pat.data repl.data s.data⟩

/-- `getPmdVersionFromRelease`: strip the `pmd_releases/` tag prefix. -/
def getPmdVersionFromRelease (release : GitHubRelease) : String :=
  replaceFirst release.tag_name "pmd_releases/" ""

/-- Embedding of `getDownloadURL`: filter the assets by the two binary
distribution naming conventions and take element 0 of the filtered array.
In the source the element is dereferenced unguarded; `none` models the
resulting runtime TypeError on an `undefined` element when no asset
matches. -/
def getDownloadURL (release : GitHubRelease) : Option String :=
  ((release.assets.filter fun a =>
      (a.name == "pmd-bin-" ++ getPmdVersionFromRelease release ++ ".zip") ||
        (a.name == "pmd-dist-" ++ getPmdVersionFromRelease release ++ "-bin.zip")).head?).map
    fun a => a.browser_download_url

/-! ### ChangeSetResolver (`determineModifiedFiles`, `extractFilenames`)

API responses are supplied as functions from page numbers: for the
pull-request branch `pages p` is the `listFiles` response body for page
`p`, for the push branch `none` models an `undefined` `files` field of the
comparison response.  Each loop iteration issues exactly one API request
with `per_page: 30`; the issued requests are recorded as
`(page, per_page)` pairs in order. -/

/-- One row of a provider diff API response. -/
structure DiffEntry where
  filename : String
  status : String
deriving DecidableEq

/-- Status filter of `extractFilenames`. -/
def keptStatus (s : String) : Bool :=
  s == "added" || s == "changed" || s == "modified"

/-- Embedding of `extractFilenames`: keep added/changed/modified entries,
normalize each filename, and keep the ones under the (trailing-slash
normalized) source path; the current-directory sentinel keeps everything.
The `page` argument is only used for debug output in the source. -/
def extractFilenames (allFiles : List DiffEntry) (page : Nat) (sourcePath : String) :
    List String :=
  ((allFiles.filter fun f => keptStatus f.status).map fun f =>
      pathNormalize f.filename).filter fun f =>
    (if sourcePath ≠ "." then pathNormalize (sourcePath ++ "/") else sourcePath) == "." ||
      strStartsWith f
        (if sourcePath ≠ "." then pathNormalize (sourcePath ++ "/") else sourcePath)

/-- Insertion into a JavaScript `Set` observed through its insertion-order
iteration: a list with no duplicates, appending unseen elements. -/
def setAdd (s : List String) (x : String) : List String :=
  if x ∈ s then s else s ++ [x]

/-- `Set.add` of every element of a page, in page order. -/
def setAddAll (s : List String) (xs : List String) : List String :=
  xs.foldl setAdd s

/-- Load at most `MAX_PAGE` pages when determining modified files. -/
def MAX_PAGE : Nat := 10

/-- The pull-request pagination loop of `determineModifiedFiles`.  `fuel` is
the number of loop iterations still allowed by `page <= MAX_PAGE`; the
returned number is the final value of the `page` variable and the returned
pair list records the issued `(page, per_page)` requests. -/
def prLoop (pages : Nat → List DiffEntry) (sourcePath : String) :
    Nat → Nat → List String → List (Nat × Nat) →
      List String × Nat × List (Nat × Nat)
  | 0, page, acc, reqs => (acc, page, reqs)
  | fuel + 1, page, acc, reqs =>
    let allFiles := pages page
    let reqs2 := reqs ++ [(page, 30)]
    if allFiles.length = 0 then (acc, page, reqs2)
    else
      prLoop pages sourcePath fuel (page + 1)
        (setAddAll acc (extractFilenames allFiles page sourcePath)) reqs2

/-- Observable outcome of the pull-request branch: the returned file list,
whether the truncation warning was emitted, and the requests issued. -/
structure PrResult where
  files : List String
  warned : Bool
  requests : List (Nat × Nat)
deriving DecidableEq

/-- The `pull_request` branch of `determineModifiedFiles`: run the loop
from page 1, warn when the final `page` value reached `MAX_PAGE`, return
the set spread into an array. -/
def determineModifiedFilesPR (pages : Nat → List DiffEntry) (sourcePath : String) :
    PrResult :=
  let r := prLoop pages sourcePath MAX_PAGE 1 [] []
  { files := r.1, warned := decide (MAX_PAGE ≤ r.2.1), requests := r.2.2 }

/-- The push pagination loop of `determineModifiedFiles`; `none` models an
`undefined` `files` field, which stops the loop like an empty page. -/
def pushLoop (pages : Nat → Option (List DiffEntry)) (sourcePath : String) :
    Nat → Nat → List String → List String × Nat
  | 0, page, acc => (acc, page)
  | fuel + 1, page, acc =>
    match pages page with
    | none => (acc, page)
    | some allFiles =>
      if allFiles.length = 0 then (acc, page)
      else
        pushLoop pages sourcePath fuel (page + 1)
          (setAddAll acc (extractFilenames allFiles page sourcePath))

/-- Observable outcome of the push branch. -/
structure PushResult where
  files : List String
  warned : Bool
deriving DecidableEq

/-- The `push` branch of `determineModifiedFiles`. -/
def determineModifiedFilesPush (pages : Nat → Option (List DiffEntry))
    (sourcePath : String) : PushResult :=
  let r := pushLoop pages sourcePath MAX_PAGE 1 []
  { files := r.1, warned := decide (MAX_PAGE ≤ r.2) }

/-- Embedding of `determineModifiedFiles`: dispatch on the event name;
`none` models the `undefined` return for unsupported events (the caller
then analyzes the whole source tree). -/
def determineModifiedFiles (eventName : String) (prPages : Nat → List DiffEntry)
    (pushPages : Nat → Option (List DiffEntry)) (sourcePath : String) :
    Option (List String) :=
  if eventName = "pull_request" then
    some (determineModifiedFilesPR prPages sourcePath).files
  else if eventName = "push" then
    some (determineModifiedFilesPush pushPages sourcePath).files
  else none

/-! ### Specification-side descriptions of the pagination loop -/

/-- First-insertion-order deduplication of a stream, as the spec describes
the result order: page order then in-page order, later duplicates collapsed
into their first position. -/
def insertionDedup (xs : List String) : List String := xs.foldl setAdd []

/-- Concatenation of the filtered contents of `n` consecutive pages
starting at `start`. -/
def prStreamAt (pages : Nat → List DiffEntry) (sourcePath : String)
    (start n : Nat) : List String :=
  ((List.range' start n).map fun p => extractFilenames (pages p) p sourcePath).flatten

/-- Number of non-empty pages the pull-request loop consumes starting at
`page` with `fuel` iterations allowed. -/
def prSteps (pages : Nat → List DiffEntry) : Nat → Nat → Nat
  | 0, _ => 0
  | fuel + 1, page =>
    if (pages page).length = 0 then 0 else prSteps pages fuel (page + 1) + 1

/-- Push-branch analogue of `prStreamAt` (an `undefined` page contributes
nothing). -/
def pushStreamAt (pages : Nat → Option (List DiffEntry)) (sourcePath : String)
    (start n : Nat) : List String :=
  ((List.range' start n).map fun p =>
      extractFilenames ((pages p).getD []) p sourcePath).flatten

/-- Push-branch analogue of `prSteps`. -/
def pushSteps (pages : Nat → Option (List DiffEntry)) : Nat → Nat → Nat
  | 0, _ => 0
  | fuel + 1, page =>
    match pages page with
    | none => 0
    | some allFiles =>
      if allFiles.length = 0 then 0 else pushSteps pages fuel (page + 1) + 1

/-! ### Concrete inputs used by witnesses -/

/-- Concrete pull-request pages: one non-empty page, page 2 empty. -/
def c1Pages : Nat → List DiffEntry := fun page =>
  if page = 1 then [{ filename := "src/A.java", status := "added" }] else []

/-- Concrete pull-request pages with a cross-page duplicate, an entry
outside the source path and a removed entry; page 3 empty. -/
def c4Pages : Nat → List DiffEntry := fun page =>
  if page = 1 then
    [{ filename := "src/A.java", status := "added" },
      { filename := "docs/x.md", status := "added" }]
  else if page = 2 then
    [{ filename := "src/A.java", status := "modified" },
      { filename := "src/B.java", status := "added" },
      { filename := "src/C.java", status := "removed" }]
  else []

/-- Concrete pull-request pages holding a kept and a removed entry. -/
def c8PrPages : Nat → List DiffEntry := fun page =>
  if page = 1 then
    [{ filename := "keep.java", status := "modified" },
      { filename := "gone.java", status := "removed" }]
  else []

/-- Push pages unused by the pull-request witness run. -/
def c8PushPages : Nat → Option (List DiffEntry) := fun _ => none

/-- Concrete pull-request pages where pages 1..9 are non-empty and page 10
is empty: the change set is complete, yet the counter reaches MAX_PAGE. -/
def c9Pages : Nat → List DiffEntry := fun page =>
  if page < MAX_PAGE then [{ filename := "f.java", status := "changed" }] else []

/-- Concrete release whose assets match neither binary naming convention. -/
def c10Release : GitHubRelease :=
  { tag_name := "pmd_releases/7.0.0",
    assets := [{ name := "pmd-uber-7.0.0.jar",
                 browser_download_url := "https://example.org/pmd-uber.jar" }] }

/-! ## Theorems -/

theorem natCmp_eq_lt {a b : Nat} : natCmp a b = .lt ↔ a < b := by
  unfold natCmp
  split_ifs with h1 h2 <;> simp <;> omega

theorem natCmp_eq_eq {a b : Nat} : natCmp a b = .eq ↔ a = b := by
  unfold natCmp
  split_ifs with h1 h2 <;> simp <;> omega

theorem semverGte_eq_false {a b : SemVer} :
    semverGte a b = false ↔ semverCompare a b = .lt := by
  unfold semverGte
  cases h : semverCompare a b <;> simp

theorem semverCompare_threshold_lt_iff (v : SemVer) :
    semverCompare v newArgsThreshold = .lt ↔ semverLtSpec v newArgsThreshold := by
  obtain ⟨ma, mi, pa, pre⟩ := v
  cases pre with
  | nil =>
    simp only [semverCompare, newArgsThreshold, natCmp, cmpPre, semverLtSpec,
      mainLtSpec, preLtSpec]
    split_ifs <;> simp_all <;> omega
  | cons x xs =>
    simp only [semverCompare, newArgsThreshold, natCmp, cmpPre, semverLtSpec,
      mainLtSpec, preLtSpec]
    split_ifs <;> simp_all <;> omega

/-- C3: for every version v, `useNewArgsFormat` (spec: usesNewArgSyntax) is
false exactly when v is below 6.41.0 in semver precedence and true exactly
when it is not, and `isPmd7Cli` (spec: isNextGenCli) is false exactly when
the major version is below 7 and true exactly when it is at least 7. -/
theorem C3_version_policy (v : SemVer) :
    (useNewArgsFormat v = false ↔ semverLtSpec v newArgsThreshold)
    ∧ (useNewArgsFormat v = true ↔ ¬semverLtSpec v newArgsThreshold)
    ∧ (isPmd7Cli v = false ↔ v.major < 7)
    ∧ (isPmd7Cli v = true ↔ 7 ≤ v.major) := by
  have h1 : useNewArgsFormat v = false ↔ semverLtSpec v newArgsThreshold := by
    unfold useNewArgsFormat
    exact semverGte_eq_false.trans (semverCompare_threshold_lt_iff v)
  refine ⟨h1, ?_, ?_, ?_⟩
  · rw [← h1]
    cases h : useNewArgsFormat v <;> simp
  · unfold isPmd7Cli
    simp
  · unfold isPmd7Cli
    simp

/-- Witness for C3 at versions 6.40.0 and 6.41.0. -/
theorem C3_version_policy_witness :
    useNewArgsFormat { major := 6, minor := 40, patch := 0, prerelease := [] } = false
    ∧ useNewArgsFormat { major := 6, minor := 41, patch := 0, prerelease := [] } = true := by
  constructor
  · exact (C3_version_policy _).1.mpr
      (Or.inl (Or.inr ⟨rfl, Or.inl (by decide)⟩))
  · refine (C3_version_policy _).2.1.mpr ?_
    simp [semverLtSpec, mainLtSpec, preLtSpec, newArgsThreshold]

/-- C2: for every version, `executePmd` emits the argument vector in the
fixed order no-cache flag, source-selector flags, `-f`, `-R`, `-r`,
`--minimum-priority`; concretely, for version 6.40.0 with explicit path "."
the argv is `-no-cache -d . -f sarif -R ruleset.xml -r pmd-report.sarif
--minimum-priority 5`, and for 6.41.0 the same with `--no-cache` first. -/
theorem C2_argv_order :
    (∀ (platform : String) (info : PmdInfo) (sel : SourceSelector)
        (ruleset reportFormat reportFile minimumPriority : String),
      (executePmd platform info sel ruleset reportFormat reportFile
          minimumPriority).args =
        noCacheFlag info.version ::
          sourceParameter info.version sel ++
            ["-f", reportFormat, "-R", ruleset, "-r", reportFile,
              "--minimum-priority", minimumPriority])
    ∧ (executePmd "linux"
        { version := { major := 6, minor := 40, patch := 0, prerelease := [] },
          path := "/cached/pmd-bin-6.40.0" }
        (.path ".") "ruleset.xml" "sarif" "pmd-report.sarif" "5").args =
      ["-no-cache", "-d", ".", "-f", "sarif", "-R", "ruleset.xml", "-r",
        "pmd-report.sarif", "--minimum-priority", "5"]
    ∧ (executePmd "linux"
        { version := { major := 6, minor := 41, patch := 0, prerelease := [] },
          path := "/cached/pmd-bin-6.41.0" }
        (.path ".") "ruleset.xml" "sarif" "pmd-report.sarif" "5").args =
      ["--no-cache", "-d", ".", "-f", "sarif", "-R", "ruleset.xml", "-r",
        "pmd-report.sarif", "--minimum-priority", "5"] :=
  ⟨fun _ _ _ _ _ _ _ => rfl, by decide, by decide⟩

/-- C6: the executable suffix is the next-gen entry point `/bin/pmd` when
`isPmd7Cli` holds and the legacy wrapper `/bin/run.sh pmd` otherwise,
except that on Windows it is always `\bin\pmd.bat` regardless of version;
when `isPmd7Cli` holds, ` check --no-progress` is appended immediately
after the chosen executable on every platform. -/
theorem C6_executable_selection (platform : String) (info : PmdInfo)
    (sel : SourceSelector) (ruleset reportFormat reportFile minimumPriority : String) :
    (executePmd platform info sel ruleset reportFormat reportFile
        minimumPriority).executable =
      info.path ++
        ((if platform = "win32" then "\\bin\\pmd.bat"
          else if isPmd7Cli info.version then "/bin/pmd" else "/bin/run.sh pmd") ++
          (if isPmd7Cli info.version then " check --no-progress" else "")) := by
  simp only [executePmd, pmdExecutableSuffix]
  split_ifs <;> simp_all

/-- C7: with a file-list selector, `executePmd` writes the comma-joined
list (no spaces, no trailing newline) to the fixed relative path
`pmd.filelist` (so `["a.txt","b.txt"]` yields exactly `a.txt,b.txt`), and
the argv carries `--file-list pmd.filelist` under the new argument syntax
and `-filelist pmd.filelist` otherwise. -/
theorem C7_file_list (platform : String) (info : PmdInfo)
    (fileList : List String) (ruleset reportFormat reportFile minimumPriority : String) :
    (executePmd platform info (.fileList fileList) ruleset reportFormat
        reportFile minimumPriority).fileListWritten =
      some ("pmd.filelist", String.intercalate "," fileList)
    ∧ fileListContent ["a.txt", "b.txt"] = "a.txt,b.txt"
    ∧ (executePmd platform info (.fileList fileList) ruleset reportFormat
        reportFile minimumPriority).args =
      noCacheFlag info.version ::
        (if useNewArgsFormat info.version then "--file-list" else "-filelist") ::
          "pmd.filelist" ::
            ["-f", reportFormat, "-R", ruleset, "-r", reportFile,
              "--minimum-priority", minimumPriority] := by
  refine ⟨?_, by decide, rfl⟩
  have hp : writeFileListPath = "pmd.filelist" := by decide
  simp [executePmd, hp, fileListContent]

/-- C5: for every present, non-empty downloadUrl, `downloadPmd` with the
literal version "latest" fails with the conflicting-inputs error; no
delegate (and hence no cache access, registry lookup or download) is
entered, since those effects live behind the returned route. -/
theorem C5_latest_with_url (downloadUrl : String) (h : downloadUrl ≠ "") :
    downloadPmd "latest" (some downloadUrl) =
      Except.error ("cannot combine version=" ++ "latest" ++
        " with custom downloadUrl=" ++ downloadUrl) := by
  unfold downloadPmd
  split_ifs with h1 h2
  · simp
  · exact absurd ⟨rfl, by simp, by simpa using h⟩ h1
  · exact absurd ⟨rfl, by simp, by simpa using h⟩ h1

/-- Witness for C5 at a concrete URL. -/
theorem C5_latest_with_url_witness :
    downloadPmd "latest" (some "https://example.org/pmd.zip") =
      Except.error ("cannot combine version=" ++ "latest" ++
        " with custom downloadUrl=" ++ "https://example.org/pmd.zip") :=
  C5_latest_with_url "https://example.org/pmd.zip" (by decide)

/-- C10: `getDownloadURL` yields an asset URL exactly when some asset is
named `pmd-bin-<version>.zip` or `pmd-dist-<version>-bin.zip`; with no
matching asset it dereferences element 0 of an empty filtered array, an
unguarded runtime failure modelled by `none`. -/
theorem C10_asset_selection (release : GitHubRelease) :
    ((∃ u, getDownloadURL release = some u) ↔
      ∃ a ∈ release.assets,
        a.name = "pmd-bin-" ++ getPmdVersionFromRelease release ++ ".zip" ∨
          a.name = "pmd-dist-" ++ getPmdVersionFromRelease release ++ "-bin.zip")
    ∧ ((∀ a ∈ release.assets,
          a.name ≠ "pmd-bin-" ++ getPmdVersionFromRelease release ++ ".zip" ∧
            a.name ≠ "pmd-dist-" ++ getPmdVersionFromRelease release ++ "-bin.zip") →
        getDownloadURL release = none) := by
  constructor
  · unfold getDownloadURL
    cases hf : release.assets.filter fun a =>
        (a.name == "pmd-bin-" ++ getPmdVersionFromRelease release ++ ".zip") ||
          (a.name == "pmd-dist-" ++ getPmdVersionFromRelease release ++ "-bin.zip") with
    | nil =>
      simp only [hf, List.head?_nil, Option.map_none]
      constructor
      · rintro ⟨u, hu⟩
        exact absurd hu (by simp)
      · rintro ⟨a, ha, hname⟩
        have : a ∈ release.assets.filter fun a =>
            (a.name == "pmd-bin-" ++ getPmdVersionFromRelease release ++ ".zip") ||
              (a.name == "pmd-dist-" ++ getPmdVersionFromRelease release ++ "-bin.zip") := by
          rw [List.mem_filter]
          refine ⟨ha, ?_⟩
          rcases hname with hn | hn <;> simp [hn]
        rw [hf] at this
        exact absurd this (List.not_mem_nil a)
    | cons b bs =>
      simp only [hf, List.head?_cons, Option.map_some]
      constructor
      · intro _
        have hb : b ∈ release.assets.filter fun a =>
            (a.name == "pmd-bin-" ++ getPmdVersionFromRelease release ++ ".zip") ||
              (a.name == "pmd-dist-" ++ getPmdVersionFromRelease release ++ "-bin.zip") := by
          rw [hf]; exact List.mem_cons_self b bs
        rw [List.mem_filter] at hb
        refine ⟨b, hb.1, ?_⟩
        have := hb.2
        simpa using this
      · intro _
        exact ⟨b.browser_download_url, rfl⟩
  · intro hnone
    unfold getDownloadURL
    have hf : (release.assets.filter fun a =>
        (a.name == "pmd-bin-" ++ getPmdVersionFromRelease release ++ ".zip") ||
          (a.name == "pmd-dist-" ++ getPmdVersionFromRelease release ++ "-bin.zip")) = [] := by
      rw [List.filter_eq_nil_iff]
      intro a ha
      have := hnone a ha
      simp [this.1, this.2]
    simp [hf]

/-- Witness for C10: a release with no matching asset yields the unguarded
failure value. -/
theorem C10_asset_selection_witness : getDownloadURL c10Release = none :=
  (C10_asset_selection c10Release).2 (by decide)

theorem setAdd_mem {s : List String} {x y : String} :
    y ∈ setAdd s x ↔ y ∈ s ∨ y = x := by
  unfold setAdd
  split_ifs with h
  · constructor
    · exact Or.inl
    · rintro (hy | rfl)
      · exact hy
      · exact h
  · simp

theorem setAdd_nodup {s : List String} {x : String} (h : s.Nodup) :
    (setAdd s x).Nodup := by
  unfold setAdd
  split_ifs with hx
  · exact h
  · simpa [List.nodup_append] using ⟨h, hx⟩

theorem setAddAll_mem {xs : List String} :
    ∀ {s : List String} {y : String}, y ∈ setAddAll s xs ↔ y ∈ s ∨ y ∈ xs := by
  induction xs with
  | nil => simp [setAddAll]
  | cons x xs ih =>
    intro s y
    rw [setAddAll, List.foldl_cons, ← setAddAll, ih, setAdd_mem]
    simp [or_assoc]

theorem setAddAll_nodup {xs : List String} :
    ∀ {s : List String}, s.Nodup → (setAddAll s xs).Nodup := by
  induction xs with
  | nil => intro s h; simpa [setAddAll]
  | cons x xs ih =>
    intro s h
    rw [setAddAll, List.foldl_cons, ← setAddAll]
    exact ih (setAdd_nodup h)

theorem setAddAll_append {s : List String} {xs ys : List String} :
    setAddAll s (xs ++ ys) = setAddAll (setAddAll s xs) ys := by
  simp [setAddAll, List.foldl_append]

theorem insertionDedup_nodup (xs : List String) : (insertionDedup xs).Nodup :=
  setAddAll_nodup List.nodup_nil

theorem insertionDedup_mem {xs : List String} {y : String} :
    y ∈ insertionDedup xs ↔ y ∈ xs := by
  rw [insertionDedup, ← setAddAll, setAddAll_mem]
  simp

theorem prSteps_le_fuel (pages : Nat → List DiffEntry) :
    ∀ fuel page, prSteps pages fuel page ≤ fuel := by
  intro fuel
  induction fuel with
  | zero => intro page; simp [prSteps]
  | succ fuel ih =>
    intro page
    rw [prSteps]
    split_ifs
    · omega
    · have := ih (page + 1)
      omega

theorem prLoop_eq (pages : Nat → List DiffEntry) (sourcePath : String) :
    ∀ fuel page acc reqs,
      prLoop pages sourcePath fuel page acc reqs =
        (setAddAll acc (prStreamAt pages sourcePath page (prSteps pages fuel page)),
          page + prSteps pages fuel page,
          reqs ++ (List.range' page (min (prSteps pages fuel page + 1) fuel)).map
            fun p => (p, 30)) := by
  intro fuel
  induction fuel with
  | zero =>
    intro page acc reqs
    simp [prLoop, prSteps, prStreamAt, setAddAll]
  | succ fuel ih =>
    intro page acc reqs
    rw [prLoop, prSteps]
    by_cases h : (pages page).length = 0
    · simp only [h, if_true, if_pos h]
      have hmin : min (0 + 1) (fuel + 1) = 1 := by omega
      simp [prStreamAt, setAddAll, hmin, List.range']
    · simp only [if_neg h]
      rw [ih]
      have hstream : prStreamAt pages sourcePath page (prSteps pages fuel (page + 1) + 1) =
          extractFilenames (pages page) page sourcePath ++
            prStreamAt pages sourcePath (page + 1) (prSteps pages fuel (page + 1)) := by
        simp [prStreamAt, List.range'_succ]
      have hmin : min (prSteps pages fuel (page + 1) + 1 + 1) (fuel + 1) =
          min (prSteps pages fuel (page + 1) + 1) fuel + 1 := by
        omega
      have hrange : List.range' page (min (prSteps pages fuel (page + 1) + 1) fuel + 1) =
          page :: List.range' (page + 1) (min (prSteps pages fuel (page + 1) + 1) fuel) :=
        List.range'_succ page (min (prSteps pages fuel (page + 1) + 1) fuel) 1
      rw [hstream, setAddAll_append, hmin, hrange]
      simp [List.append_assoc]
      omega

theorem prSteps_of_first_empty (pages : Nat → List DiffEntry) :
    ∀ fuel page k, page ≤ k → k ≤ page + fuel → pages k = [] →
      (∀ p, page ≤ p → p < k → pages p ≠ []) →
      prSteps pages fuel page = k - page := by
  intro fuel
  induction fuel with
  | zero =>
    intro page k h1 h2 _ _
    have : k = page := by omega
    simp [prSteps, this]
  | succ fuel ih =>
    intro page k h1 h2 hk hne
    rw [prSteps]
    by_cases hpk : page = k
    · have h0 : (pages page).length = 0 := by rw [hpk, hk]; rfl
      rw [if_pos h0]
      omega
    · have hlt : page < k := by omega
      have hne0 : (pages page).length ≠ 0 := by
        intro h0
        exact hne page le_rfl hlt (List.length_eq_zero.mp h0)
      rw [if_neg hne0]
      have := ih (page + 1) k (by omega) (by omega) hk
        (fun p hp1 hp2 => hne p (by omega) hp2)
      omega

theorem prSteps_of_all_nonempty (pages : Nat → List DiffEntry) :
    ∀ fuel page, (∀ p, page ≤ p → p < page + fuel → pages p ≠ []) →
      prSteps pages fuel page = fuel := by
  intro fuel
  induction fuel with
  | zero => intro page _; simp [prSteps]
  | succ fuel ih =>
    intro page hne
    rw [prSteps]
    have hne0 : (pages page).length ≠ 0 := by
      intro h0
      exact hne page le_rfl (by omega) (List.length_eq_zero.mp h0)
    rw [if_neg hne0]
    have := ih (page + 1) (fun p hp1 hp2 => hne p (by omega) (by omega))
    omega

theorem pathNormalizeCore_trailing_ne_dot (isAbs : Bool) (body : List Char) :
    pathNormalizeCore isAbs true body ≠ ['.'] := by
  unfold pathNormalizeCore
  cases isAbs <;> cases body <;> simp

theorem pathNormalizeData_concat_slash_ne_dot (l : List Char) :
    pathNormalizeData (l ++ ['/']) ≠ ['.'] := by
  have hne : l ++ ['/'] ≠ [] := by simp
  have htrail : ((l ++ ['/']).getLast? == some '/') = true := by
    rw [List.getLast?_concat]; rfl
  unfold pathNormalizeData
  rw [if_neg hne, htrail]
  exact pathNormalizeCore_trailing_ne_dot _ _

theorem pathNormalize_append_slash_ne_dot (s : String) :
    pathNormalize (s ++ "/") ≠ "." := by
  unfold pathNormalize
  intro hcontra
  have hdata : pathNormalizeData ((s ++ "/").data) = ['.'] := by
    have := congrArg String.data hcontra
    simpa using this
  have hsplit : (s ++ "/").data = s.data ++ ['/'] := rfl
  rw [hsplit] at hdata
  exact pathNormalizeData_concat_slash_ne_dot s.data hdata

theorem extractFilenames_mem {allFiles : List DiffEntry} {page : Nat}
    {sourcePath f : String} (h : f ∈ extractFilenames allFiles page sourcePath) :
    (∃ e ∈ allFiles,
        (e.status = "added" ∨ e.status = "changed" ∨ e.status = "modified") ∧
          f = pathNormalize e.filename)
    ∧ (sourcePath = "." ∨ strStartsWith f (pathNormalize (sourcePath ++ "/")) = true) := by
  unfold extractFilenames at h
  rw [List.mem_filter] at h
  obtain ⟨hmem, hcond⟩ := h
  rw [List.mem_map] at hmem
  obtain ⟨e, he, rfl⟩ := hmem
  rw [List.mem_filter] at he
  refine ⟨⟨e, he.1, ?_, rfl⟩, ?_⟩
  · have hs := he.2
    unfold keptStatus at hs
    simp at hs
    tauto
  · by_cases hsp : sourcePath = "."
    · exact Or.inl hsp
    · right
      rw [if_pos hsp] at hcond
      rcases Bool.or_eq_true_iff.mp hcond with hc | hc
      · exact absurd (by simpa using hc) (pathNormalize_append_slash_ne_dot sourcePath)
      · exact hc

theorem prStreamAt_mem {pages : Nat → List DiffEntry} {sourcePath f : String}
    {start n : Nat} :
    f ∈ prStreamAt pages sourcePath start n ↔
      ∃ p ∈ List.range' start n, f ∈ extractFilenames (pages p) p sourcePath := by
  unfold prStreamAt
  simp

theorem pushLoop_files_mem (pages : Nat → Option (List DiffEntry)) (sourcePath : String) :
    ∀ fuel page acc f, f ∈ (pushLoop pages sourcePath fuel page acc).1 →
      f ∈ acc ∨ ∃ p, f ∈ extractFilenames ((pages p).getD []) p sourcePath := by
  intro fuel
  induction fuel with
  | zero =>
    intro page acc f hf
    exact Or.inl (by simpa [pushLoop] using hf)
  | succ fuel ih =>
    intro page acc f hf
    cases hp : pages page with
    | none =>
      simp only [pushLoop, hp] at hf
      exact Or.inl hf
    | some allFiles =>
      simp only [pushLoop, hp] at hf
      by_cases h0 : allFiles.length = 0
      · rw [if_pos h0] at hf
        exact Or.inl hf
      · rw [if_neg h0] at hf
        rcases ih _ _ _ hf with hacc | hex
        · rcases setAddAll_mem.mp hacc with h1 | h2
          · exact Or.inl h1
          · exact Or.inr ⟨page, by simpa [hp] using h2⟩
        · exact Or.inr hex

theorem determineModifiedFilesPR_files_eq (pages : Nat → List DiffEntry)
    (sourcePath : String) :
    (determineModifiedFilesPR pages sourcePath).files =
      insertionDedup (prStreamAt pages sourcePath 1 (prSteps pages MAX_PAGE 1)) := by
  unfold determineModifiedFilesPR
  rw [prLoop_eq]
  rfl

theorem determineModifiedFilesPR_warned_eq (pages : Nat → List DiffEntry)
    (sourcePath : String) :
    (determineModifiedFilesPR pages sourcePath).warned =
      decide (MAX_PAGE ≤ 1 + prSteps pages MAX_PAGE 1) := by
  unfold determineModifiedFilesPR
  rw [prLoop_eq]

theorem determineModifiedFilesPR_requests_eq (pages : Nat → List DiffEntry)
    (sourcePath : String) :
    (determineModifiedFilesPR pages sourcePath).requests =
      (List.range' 1 (min (prSteps pages MAX_PAGE 1 + 1) MAX_PAGE)).map
        fun p => (p, 30) := by
  unfold determineModifiedFilesPR
  rw [prLoop_eq]
  rfl

/-- C1: on the pull_request branch the resolver requests pages 1..k with
page size 30 up to the first empty page k (no request beyond it),
accumulates the filtered filenames of the non-empty pages into a
deduplicating insertion-ordered set, and when every page up to MAX_PAGE is
non-empty it requests exactly pages 1..MAX_PAGE, emits the incompleteness
warning and still returns everything gathered. -/
theorem C1_pr_pagination (pages : Nat → List DiffEntry) (sourcePath : String) :
    (∀ k, 1 ≤ k → k ≤ MAX_PAGE → pages k = [] →
      (∀ p, p < k → 1 ≤ p → pages p ≠ []) →
      (determineModifiedFilesPR pages sourcePath).requests =
          (List.range' 1 k).map (fun p => (p, 30))
        ∧ (determineModifiedFilesPR pages sourcePath).files =
          insertionDedup (prStreamAt pages sourcePath 1 (k - 1)))
    ∧ ((∀ p, p ≤ MAX_PAGE → 1 ≤ p → pages p ≠ []) →
      (determineModifiedFilesPR pages sourcePath).requests =
          (List.range' 1 MAX_PAGE).map (fun p => (p, 30))
        ∧ (determineModifiedFilesPR pages sourcePath).files =
          insertionDedup (prStreamAt pages sourcePath 1 MAX_PAGE)
        ∧ (determineModifiedFilesPR pages sourcePath).warned = true) := by
  have hM : MAX_PAGE = 10 := rfl
  constructor
  · intro k h1 h2 hk hne
    have hsteps : prSteps pages MAX_PAGE 1 = k - 1 :=
      prSteps_of_first_empty pages MAX_PAGE 1 k h1 (by omega) hk
        (fun p hp1 hp2 => hne p hp2 hp1)
    constructor
    · rw [determineModifiedFilesPR_requests_eq, hsteps]
      have hmin : min (k - 1 + 1) MAX_PAGE = k := by omega
      rw [hmin]
    · rw [determineModifiedFilesPR_files_eq, hsteps]
  · intro hfull
    have hsteps : prSteps pages MAX_PAGE 1 = MAX_PAGE :=
      prSteps_of_all_nonempty pages MAX_PAGE 1
        (fun p hp1 hp2 => hfull p (by omega) hp1)
    refine ⟨?_, ?_, ?_⟩
    · rw [determineModifiedFilesPR_requests_eq, hsteps]
      have hmin : min (MAX_PAGE + 1) MAX_PAGE = MAX_PAGE := by omega
      rw [hmin]
    · rw [determineModifiedFilesPR_files_eq, hsteps]
    · rw [determineModifiedFilesPR_warned_eq, hsteps]
      simp

/-- Witness for C1: one non-empty page, page 2 empty; pages 1 and 2 are
requested (none later) and the single filtered filename is returned. -/
theorem C1_pr_pagination_witness :
    (determineModifiedFilesPR c1Pages ".").requests = [(1, 30), (2, 30)]
    ∧ (determineModifiedFilesPR c1Pages ".").files = ["src/A.java"] := by
  have h := (C1_pr_pagination c1Pages ".").1 2 (by decide) (by decide)
    (by decide) (by decide)
  exact ⟨h.1.trans (by decide), h.2.trans (by decide)⟩

/-- C4: on the pull_request branch the returned file list has no
duplicates, every returned filename is the normalization of some change
entry filename and starts with the normalized source path (unless the
source path is the current-directory sentinel), and the result is the
first-insertion-order deduplication of the per-page filtered stream (page
order, then in-page order, cross-page duplicates collapsed to their first
position). -/
theorem C4_changeset_invariants (pages : Nat → List DiffEntry) (sourcePath : String) :
    (determineModifiedFilesPR pages sourcePath).files.Nodup
    ∧ (∀ f ∈ (determineModifiedFilesPR pages sourcePath).files,
        (∃ p, ∃ e ∈ pages p, f = pathNormalize e.filename)
        ∧ (sourcePath = "." ∨ strStartsWith f (pathNormalize (sourcePath ++ "/")) = true))
    ∧ (∃ n, n ≤ MAX_PAGE ∧
        (determineModifiedFilesPR pages sourcePath).files =
          insertionDedup (prStreamAt pages sourcePath 1 n)) := by
  refine ⟨?_, ?_, prSteps pages MAX_PAGE 1, prSteps_le_fuel pages MAX_PAGE 1,
    determineModifiedFilesPR_files_eq pages sourcePath⟩
  · rw [determineModifiedFilesPR_files_eq]
    exact insertionDedup_nodup _
  · intro f hf
    rw [determineModifiedFilesPR_files_eq, insertionDedup_mem, prStreamAt_mem] at hf
    obtain ⟨p, _, hfe⟩ := hf
    obtain ⟨⟨e, he, _, heq⟩, hpath⟩ := extractFilenames_mem hfe
    exact ⟨⟨p, e, he, heq⟩, hpath⟩

/-- Witness for C4 at concrete pages with a cross-page duplicate and a
source path filter. -/
theorem C4_changeset_invariants_witness :
    "src/A.java" ∈ (determineModifiedFilesPR c4Pages "src").files
    ∧ ((∃ p, ∃ e ∈ c4Pages p, "src/A.java" = pathNormalize e.filename)
      ∧ ("src" = "." ∨
        strStartsWith "src/A.java" (pathNormalize ("src" ++ "/")) = true)) :=
  ⟨by decide, (C4_changeset_invariants c4Pages "src").2.1 "src/A.java" (by decide)⟩

/-- C8: every filename returned by the resolver comes from a change entry
whose status is added, changed or modified; entries with status removed
(or renamed without content change) never contribute an output filename. -/
theorem C8_status_filter (eventName : String) (prPages : Nat → List DiffEntry)
    (pushPages : Nat → Option (List DiffEntry)) (sourcePath : String)
    (res : List String)
    (h : determineModifiedFiles eventName prPages pushPages sourcePath = some res) :
    ∀ f ∈ res, ∃ e : DiffEntry,
      (e.status = "added" ∨ e.status = "changed" ∨ e.status = "modified")
      ∧ f = pathNormalize e.filename
      ∧ ∃ p, ((eventName = "pull_request" ∧ e ∈ prPages p)
            ∨ (eventName = "push" ∧ e ∈ (pushPages p).getD [])) := by
  intro f hf
  unfold determineModifiedFiles at h
  split_ifs at h with hev1 hev2
  · have hres := Option.some.inj h
    rw [← hres] at hf
    rw [determineModifiedFilesPR_files_eq, insertionDedup_mem, prStreamAt_mem] at hf
    obtain ⟨p, _, hfe⟩ := hf
    obtain ⟨⟨e, he, hstat, heq⟩, _⟩ := extractFilenames_mem hfe
    exact ⟨e, hstat, heq, p, Or.inl ⟨hev1, he⟩⟩
  · have hres := Option.some.inj h
    rw [← hres] at hf
    have hf2 : f ∈ (pushLoop pushPages sourcePath MAX_PAGE 1 []).1 := hf
    rcases pushLoop_files_mem pushPages sourcePath MAX_PAGE 1 [] f hf2 with hnil | ⟨p, hfe⟩
    · exact absurd hnil (List.not_mem_nil f)
    · obtain ⟨⟨e, he, hstat, heq⟩, _⟩ := extractFilenames_mem hfe
      exact ⟨e, hstat, heq, p, Or.inr ⟨hev2, he⟩⟩

/-- Witness for C8 at a concrete pull-request run containing a removed
entry. -/
theorem C8_status_filter_witness :
    ∃ e : DiffEntry,
      (e.status = "added" ∨ e.status = "changed" ∨ e.status = "modified")
      ∧ "keep.java" = pathNormalize e.filename
      ∧ ∃ p, (("pull_request" = "pull_request" ∧ e ∈ c8PrPages p)
            ∨ ("pull_request" = "push" ∧ e ∈ (c8PushPages p).getD [])) :=
  C8_status_filter "pull_request" c8PrPages c8PushPages "." ["keep.java"]
    (by decide) "keep.java" (by decide)

/-- C9: the truncation warning is governed by `page >= MAX_PAGE` after the
loop: it fires whenever the page counter reaches 10, including when the
10th page itself is empty (a complete change set), it stays silent when an
earlier page is empty, and it fires when all 10 pages are non-empty. -/
theorem C9_warning_condition (pages : Nat → List DiffEntry) (sourcePath : String) :
    ((∀ p, p < MAX_PAGE → 1 ≤ p → pages p ≠ []) → pages MAX_PAGE = [] →
      (determineModifiedFilesPR pages sourcePath).warned = true)
    ∧ (∀ k, 1 ≤ k → k < MAX_PAGE → pages k = [] →
        (∀ p, p < k → 1 ≤ p → pages p ≠ []) →
        (determineModifiedFilesPR pages sourcePath).warned = false)
    ∧ ((∀ p, p ≤ MAX_PAGE → 1 ≤ p → pages p ≠ []) →
      (determineModifiedFilesPR pages sourcePath).warned = true) := by
  have hM : MAX_PAGE = 10 := rfl
  refine ⟨?_, ?_, ?_⟩
  · intro hne hk
    have hsteps : prSteps pages MAX_PAGE 1 = MAX_PAGE - 1 :=
      prSteps_of_first_empty pages MAX_PAGE 1 MAX_PAGE (by omega) (by omega) hk
        (fun p hp1 hp2 => hne p hp2 hp1)
    rw [determineModifiedFilesPR_warned_eq, hsteps]
    decide
  · intro k h1 h2 hk hne
    have hsteps : prSteps pages MAX_PAGE 1 = k - 1 :=
      prSteps_of_first_empty pages MAX_PAGE 1 k h1 (by omega) hk
        (fun p hp1 hp2 => hne p hp2 hp1)
    rw [determineModifiedFilesPR_warned_eq, hsteps]
    rw [hM] at h2 ⊢
    simp only [decide_eq_false_iff_not]
    omega
  · intro hfull
    have hsteps : prSteps pages MAX_PAGE 1 = MAX_PAGE :=
      prSteps_of_all_nonempty pages MAX_PAGE 1
        (fun p hp1 hp2 => hfull p (by omega) hp1)
    rw [determineModifiedFilesPR_warned_eq, hsteps]
    simp

/-- Witness for C9: pages 1..9 non-empty and page 10 empty — the change
set is complete, yet the warning fires. -/
theorem C9_warning_condition_witness :
    (determineModifiedFilesPR c9Pages ".").warned = true :=
  (C9_warning_condition c9Pages ".").1 (by decide) (by decide)
